import Mathlib

/-!
Verification development for the AudioFlex overlap-add time stretcher
(`src/audioflex/overlap_add.py`, class `OverlapAdd`).

Embedding conventions:
* Python ints become `ℤ`; audio samples and the rate become `ℚ`
  (idealising the float arithmetic; `round` is modelled as Python's
  round-half-to-even).
* The Hann window row built by `np.hanning(block_size)` has irrational
  entries; since no claim inspects its concrete values we keep the
  per-channel window row abstract, as a function `ℤ → ℚ` supplied at
  construction (the code replicates one identical row per channel).
* The `SliceableArray` input buffer is an external collaborator; it is
  modelled as a total function `channel → position → ℚ`.  A slice
  `buf[a : b]` with `a ≤ b` yields `b - a` columns per channel; slices
  with negative extent (negative `pull` requests) have
  collaborator-defined, numpy-wraparound-dependent behavior and are not
  modelled.
* `self._semi_block_samples = self.block_size // 2` is computed once from
  the immutable `block_size`, so it is modelled as the derived value
  `block_size / 2` (Lean's `/` on `ℤ` agrees with Python's `//` for the
  positive divisor 2).
* Python exceptions are modelled by `Option` (`none` = the call raises
  and no new state is produced).
* The recursion in `pull` is modelled with explicit fuel
  (`pullF fuel s n`); `none` means the run did not finish within `fuel`
  nested calls.  `pullF` is monotone in fuel, so `∃ fuel, ... = some r`
  captures termination with result `r`.
* `_process_current_block` is the identity hook of the base class: its
  result is discarded and it has no state effect, so it is omitted.
-/

/-- A channel-major matrix of samples: one list per channel row, together
with the number of time columns (numpy's `shape[1]`, which stays
meaningful even when there are zero channel rows). -/
structure Mat where
  rows : List (List ℚ)
  width : ℕ
deriving DecidableEq

/-- Elementwise sum of two equally-shaped matrices:
`np.sum((a, b), axis=0)`. -/
def Mat.add (a b : Mat) : Mat :=
  ⟨List.zipWith (List.zipWith (fun x y => x + y)) a.rows b.rows, a.width⟩

/-- Elementwise (Hadamard) product of two equally-shaped matrices: numpy
`*` broadcasting on equal shapes. -/
def Mat.hadamard (a b : Mat) : Mat :=
  ⟨List.zipWith (List.zipWith (fun x y => x * y)) a.rows b.rows, a.width⟩

/-- Concatenation along the time axis: `np.concatenate((a, b), axis=1)`. -/
def Mat.hcat (a b : Mat) : Mat :=
  ⟨List.zipWith (fun x y => x ++ y) a.rows b.rows, a.width + b.width⟩

/-- Entry of a matrix at channel `c`, column `j` (0 outside the shape). -/
def Mat.entry (m : Mat) (c j : ℕ) : ℚ :=
  ((m.rows.getD c []).getD j 0)

/-- The floor of a rational, computed executably (the denominator is
positive, so Euclidean division of the numerator by it is the floor). -/
def ratFloor (q : ℚ) : ℤ := q.num / (q.den : ℤ)

/-- Python's `round` on an exact rational value: round half to even. -/
def pyRound (q : ℚ) : ℤ :=
  if q - ratFloor q < 1/2 then ratFloor q
  else if 1/2 < q - ratFloor q then ratFloor q + 1
  else if 2 ∣ ratFloor q then ratFloor q else ratFloor q + 1

/-- State of an `OverlapAdd` object (`overlap_add.py`, lines 36-48).  The
window is stored as its (identical) per-channel row. -/
structure OverlapAdd where
  block_size : ℤ
  channels : ℕ
  window : ℤ → ℚ
  input_buffer : ℕ → ℤ → ℚ
  inv_time_factor : ℚ
  semi_block_index : ℤ
  input_block_index : ℤ
  sum_buffer_index : ℤ
  output_index : ℤ

/-- `self._semi_block_samples = self.block_size // 2`, derived since
`block_size` is immutable. -/
def OverlapAdd.semi_block_samples (s : OverlapAdd) : ℤ :=
  s.block_size / 2

/-- `OverlapAdd.__init__`: stores the parameters, builds the (abstract)
window row, sets `inv_time_factor = 1` and zeroes the four cursors.  The
Python constructor performs no validation and cannot raise for any
integer arguments (`np.hanning` returns an empty array for
`block_size < 1`). -/
def OverlapAdd.init (input_buffer : ℕ → ℤ → ℚ) (block_size : ℤ)
    (channels : ℕ) (hannRow : ℤ → ℚ) : OverlapAdd :=
  { block_size := block_size
    channels := channels
    window := hannRow
    input_buffer := input_buffer
    inv_time_factor := 1
    semi_block_index := 0
    input_block_index := 0
    sum_buffer_index := 0
    output_index := 0 }

/-- `set_rate`: unconditional assignment `self.inv_time_factor = rate`. -/
def OverlapAdd.set_rate (s : OverlapAdd) (rate : ℚ) : OverlapAdd :=
  { s with inv_time_factor := rate }

/-- `set_time_factor`: `self.inv_time_factor = 1 / time_factor`.  Python
raises `ZeroDivisionError` (modelled as `none`) when `time_factor == 0`,
before any assignment happens. -/
def OverlapAdd.set_time_factor (s : OverlapAdd) (time_factor : ℚ) :
    Option OverlapAdd :=
  if time_factor = 0 then none
  else some { s with inv_time_factor := 1 / time_factor }

/-- `_increment_indices`: advance all four cursors by `samples`. -/
def OverlapAdd.increment_indices (s : OverlapAdd) (samples : ℤ) :
    OverlapAdd :=
  { s with
    input_block_index := s.input_block_index + samples
    sum_buffer_index := s.sum_buffer_index + samples
    output_index := s.output_index + samples
    semi_block_index := s.semi_block_index + samples }

/-- `_get_window_slice`: `self.window[:, window_start : window_start +
length]`, modelled for non-negative lengths.  In every use below the
slice stays inside the window (`0 ≤ window_start` and
`window_start + length ≤ block_size`, or `length = 0` giving an empty
slice), so numpy clamping never cuts it.  A negative `length` (which in
the code arises only from a negative `pull` request) would make numpy
wrap the negative stop index around the window's end; that
collaborator-visible behavior is outside this model, and no theorem
below relies on slices of negative length. -/
def OverlapAdd.get_window_slice (s : OverlapAdd) (length window_start : ℤ) :
    Mat :=
  ⟨(List.range s.channels).map
      (fun _ => (List.range length.toNat).map
        (fun (j : ℕ) => s.window (window_start + (j : ℤ)))),
    length.toNat⟩

/-- A range read `self.input_buffer[start : stop]` from the (unbounded,
abstract) sample source, modelled for `start ≤ stop`: `stop - start`
columns per channel.  For `stop < start` (only reachable from a negative
`pull` request) the result of a real `SliceableArray` is
collaborator-defined (a numpy-backed source applies negative-index
wraparound), so that case is outside this model and no theorem below
relies on it. -/
def OverlapAdd.buffer_slice (s : OverlapAdd) (start stop : ℤ) : Mat :=
  ⟨(List.range s.channels).map
      (fun c => (List.range (stop - start).toNat).map
        (fun (j : ℕ) => s.input_buffer c (start + (j : ℤ)))),
    (stop - start).toNat⟩

/-- `_take_from_semi_block`: window the current block and the summing
buffer, advance the cursors, and return the elementwise sum.
(`_process_current_block` is the identity hook with no state effect.) -/
def OverlapAdd.take_from_semi_block (s : OverlapAdd) (samples : ℤ) :
    Mat × OverlapAdd :=
  let ws1 := s.get_window_slice samples s.semi_block_index
  let cur := (s.buffer_slice s.input_block_index
      (s.input_block_index + samples)).hadamard ws1
  let ws2 := s.get_window_slice samples
      (s.semi_block_samples + s.semi_block_index)
  let add := (s.buffer_slice s.sum_buffer_index
      (s.sum_buffer_index + samples)).hadamard ws2
  (cur.add add, s.increment_indices samples)

/-- `_update_block_indices`: the summing buffer takes over the old
current-block position, the read head is recomputed from the cumulative
output and the current rate, and the semi-block offset resets. -/
def OverlapAdd.update_block_indices (s : OverlapAdd) : OverlapAdd :=
  { s with
    sum_buffer_index := s.input_block_index
    input_block_index := pyRound (s.output_index * s.inv_time_factor)
    semi_block_index := 0 }

/-- `pull`, with explicit fuel bounding the recursion depth (`none` means
the recursion did not finish within `fuel` nested calls; the Python code
has no base case of its own beyond the three branches). -/
def pullF : ℕ → OverlapAdd → ℤ → Option (Mat × OverlapAdd)
  | 0, _, _ => none
  | fuel + 1, s, samples =>
    if s.semi_block_index + samples ≤ s.semi_block_samples then
      some (s.take_from_semi_block samples)
    else if s.semi_block_index = s.semi_block_samples then
      pullF fuel s.update_block_indices samples
    else
      (pullF fuel s (s.semi_block_samples - s.semi_block_index)).bind
        (fun be =>
          (pullF fuel be.2.update_block_indices
              (samples - (be.1.width : ℤ))).bind
            (fun nb => some (be.1.hcat nb.1, nb.2)))

/-- `pull s n` terminates when some finite recursion depth suffices. -/
def pullTerminates (s : OverlapAdd) (samples : ℤ) : Prop :=
  ∃ fuel, (pullF fuel s samples).isSome

/-- Run `pull` with a fixed generous recursion depth, defaulting to an
empty result; used to name concrete runs in witnesses. -/
def runPull (s : OverlapAdd) (samples : ℤ) : Mat × OverlapAdd :=
  (pullF 64 s samples).getD (⟨[], 0⟩, s)

/-! ## Basic list and matrix lemmas -/

attribute [ext] Mat OverlapAdd

theorem zipWith_map_same {α β γ δ : Type} (f : β → γ → δ) (g : α → β)
    (h : α → γ) : ∀ l : List α,
    List.zipWith f (l.map g) (l.map h) = l.map (fun x => f (g x) (h x)) := by
  intro l
  induction l with
  | nil => rfl
  | cons x t ih => simp [ih]

theorem zipWith_append_assoc : ∀ (x y z : List (List ℚ)),
    List.zipWith (fun u v => u ++ v) (List.zipWith (fun u v => u ++ v) x y) z
      = List.zipWith (fun u v => u ++ v) x (List.zipWith (fun u v => u ++ v) y z) := by
  intro x
  induction x with
  | nil => intro y z; rfl
  | cons a t ih =>
    intro y z
    cases y with
    | nil => rfl
    | cons b u =>
      cases z with
      | nil => rfl
      | cons c v => simp [ih, List.append_assoc]

theorem zipWith_replicate_nil : ∀ rows : List (List ℚ),
    List.zipWith (fun u v => u ++ v) (List.replicate rows.length ([] : List ℚ)) rows
      = rows := by
  intro rows
  induction rows with
  | nil => rfl
  | cons a t ih => simp [ih, List.replicate_succ]

theorem Mat.hcat_assoc (a b c : Mat) :
    (a.hcat b).hcat c = a.hcat (b.hcat c) := by
  ext : 1
  · exact zipWith_append_assoc a.rows b.rows c.rows
  · exact Nat.add_assoc a.width b.width c.width

theorem Mat.hcat_left_empty (ch : ℕ) (b : Mat) (h : b.rows.length = ch) :
    Mat.hcat ⟨List.replicate ch [], 0⟩ b = b := by
  ext : 1
  · subst h; exact zipWith_replicate_nil b.rows
  · simp [Mat.hcat]

/-! ## Field-projection lemmas for the state operations -/

@[simp] theorem increment_semi (s : OverlapAdd) (n : ℤ) :
    (s.increment_indices n).semi_block_index = s.semi_block_index + n := rfl
@[simp] theorem increment_input (s : OverlapAdd) (n : ℤ) :
    (s.increment_indices n).input_block_index = s.input_block_index + n := rfl
@[simp] theorem increment_sum (s : OverlapAdd) (n : ℤ) :
    (s.increment_indices n).sum_buffer_index = s.sum_buffer_index + n := rfl
@[simp] theorem increment_output (s : OverlapAdd) (n : ℤ) :
    (s.increment_indices n).output_index = s.output_index + n := rfl
@[simp] theorem increment_channels (s : OverlapAdd) (n : ℤ) :
    (s.increment_indices n).channels = s.channels := rfl
@[simp] theorem increment_block_size (s : OverlapAdd) (n : ℤ) :
    (s.increment_indices n).block_size = s.block_size := rfl
@[simp] theorem increment_window (s : OverlapAdd) (n : ℤ) :
    (s.increment_indices n).window = s.window := rfl
@[simp] theorem increment_buffer (s : OverlapAdd) (n : ℤ) :
    (s.increment_indices n).input_buffer = s.input_buffer := rfl
@[simp] theorem increment_rate (s : OverlapAdd) (n : ℤ) :
    (s.increment_indices n).inv_time_factor = s.inv_time_factor := rfl
@[simp] theorem increment_sbs (s : OverlapAdd) (n : ℤ) :
    (s.increment_indices n).semi_block_samples = s.semi_block_samples := rfl

@[simp] theorem update_semi (s : OverlapAdd) :
    s.update_block_indices.semi_block_index = 0 := rfl
@[simp] theorem update_input (s : OverlapAdd) :
    s.update_block_indices.input_block_index
      = pyRound (s.output_index * s.inv_time_factor) := rfl
@[simp] theorem update_sum (s : OverlapAdd) :
    s.update_block_indices.sum_buffer_index = s.input_block_index := rfl
@[simp] theorem update_output (s : OverlapAdd) :
    s.update_block_indices.output_index = s.output_index := rfl
@[simp] theorem update_channels (s : OverlapAdd) :
    s.update_block_indices.channels = s.channels := rfl
@[simp] theorem update_block_size (s : OverlapAdd) :
    s.update_block_indices.block_size = s.block_size := rfl
@[simp] theorem update_window (s : OverlapAdd) :
    s.update_block_indices.window = s.window := rfl
@[simp] theorem update_buffer (s : OverlapAdd) :
    s.update_block_indices.input_buffer = s.input_buffer := rfl
@[simp] theorem update_rate (s : OverlapAdd) :
    s.update_block_indices.inv_time_factor = s.inv_time_factor := rfl
@[simp] theorem update_sbs (s : OverlapAdd) :
    s.update_block_indices.semi_block_samples = s.semi_block_samples := rfl

theorem increment_add (s : OverlapAdd) (m n : ℤ) :
    (s.increment_indices m).increment_indices n
      = s.increment_indices (m + n) := by
  ext <;> simp [OverlapAdd.increment_indices, add_assoc]

theorem increment_zero (s : OverlapAdd) : s.increment_indices 0 = s := by
  ext <;> simp [OverlapAdd.increment_indices]

/-! ## Normal form of `_take_from_semi_block` -/

theorem take_snd (s : OverlapAdd) (n : ℤ) :
    (s.take_from_semi_block n).2 = s.increment_indices n := rfl

theorem take_width (s : OverlapAdd) (n : ℤ) :
    (s.take_from_semi_block n).1.width = n.toNat := by
  simp [OverlapAdd.take_from_semi_block, Mat.add, Mat.hadamard,
    OverlapAdd.buffer_slice, add_sub_cancel_left]

theorem take_rows (s : OverlapAdd) (n : ℤ) :
    (s.take_from_semi_block n).1.rows
      = (List.range s.channels).map (fun c =>
          (List.range n.toNat).map (fun (j : ℕ) =>
            s.input_buffer c (s.input_block_index + (j : ℤ))
                * s.window (s.semi_block_index + (j : ℤ))
              + s.input_buffer c (s.sum_buffer_index + (j : ℤ))
                * s.window (s.semi_block_samples + s.semi_block_index + (j : ℤ)))) := by
  simp only [OverlapAdd.take_from_semi_block, Mat.add, Mat.hadamard,
    OverlapAdd.buffer_slice, OverlapAdd.get_window_slice,
    add_sub_cancel_left, zipWith_map_same]

/-! ## Unfolding lemmas for `pullF` -/

theorem pullF_case_fit {s : OverlapAdd} {n : ℤ} (f : ℕ)
    (h : s.semi_block_index + n ≤ s.semi_block_samples) :
    pullF (f + 1) s n = some (s.take_from_semi_block n) := by
  show (if s.semi_block_index + n ≤ s.semi_block_samples then
      some (s.take_from_semi_block n)
    else if s.semi_block_index = s.semi_block_samples then
      pullF f s.update_block_indices n
    else
      (pullF f s (s.semi_block_samples - s.semi_block_index)).bind
        (fun be =>
          (pullF f be.2.update_block_indices (n - (be.1.width : ℤ))).bind
            (fun nb => some (be.1.hcat nb.1, nb.2)))) = _
  rw [if_pos h]

theorem pullF_case_exhausted {s : OverlapAdd} {n : ℤ} (f : ℕ)
    (h1 : ¬ s.semi_block_index + n ≤ s.semi_block_samples)
    (h2 : s.semi_block_index = s.semi_block_samples) :
    pullF (f + 1) s n = pullF f s.update_block_indices n := by
  show (if s.semi_block_index + n ≤ s.semi_block_samples then
      some (s.take_from_semi_block n)
    else if s.semi_block_index = s.semi_block_samples then
      pullF f s.update_block_indices n
    else
      (pullF f s (s.semi_block_samples - s.semi_block_index)).bind
        (fun be =>
          (pullF f be.2.update_block_indices (n - (be.1.width : ℤ))).bind
            (fun nb => some (be.1.hcat nb.1, nb.2)))) = _
  rw [if_neg h1, if_pos h2]

theorem pullF_case_split {s : OverlapAdd} {n : ℤ} (f : ℕ)
    (h1 : ¬ s.semi_block_index + n ≤ s.semi_block_samples)
    (h2 : ¬ s.semi_block_index = s.semi_block_samples) :
    pullF (f + 1) s n
      = (pullF f s (s.semi_block_samples - s.semi_block_index)).bind
          (fun be =>
            (pullF f be.2.update_block_indices (n - (be.1.width : ℤ))).bind
              (fun nb => some (be.1.hcat nb.1, nb.2))) := by
  show (if s.semi_block_index + n ≤ s.semi_block_samples then
      some (s.take_from_semi_block n)
    else if s.semi_block_index = s.semi_block_samples then
      pullF f s.update_block_indices n
    else
      (pullF f s (s.semi_block_samples - s.semi_block_index)).bind
        (fun be =>
          (pullF f be.2.update_block_indices (n - (be.1.width : ℤ))).bind
            (fun nb => some (be.1.hcat nb.1, nb.2)))) = _
  rw [if_neg h1, if_neg h2]

/-! ## Fuel monotonicity and shape preservation -/

theorem pullF_mono : ∀ {f1 f2 : ℕ}, f1 ≤ f2 → ∀ {s : OverlapAdd} {n : ℤ}
    {r : Mat × OverlapAdd}, pullF f1 s n = some r → pullF f2 s n = some r := by
  intro f1
  induction f1 with
  | zero => intro f2 _ s n r h; simp [pullF] at h
  | succ f ih =>
    intro f2 hle s n r h
    obtain ⟨f2p, rfl⟩ : ∃ g, f2 = g + 1 := ⟨f2 - 1, by omega⟩
    have hle2 : f ≤ f2p := by omega
    by_cases hA : s.semi_block_index + n ≤ s.semi_block_samples
    · rw [pullF_case_fit f hA] at h
      rw [pullF_case_fit f2p hA]
      exact h
    · by_cases hB : s.semi_block_index = s.semi_block_samples
      · rw [pullF_case_exhausted f hA hB] at h
        rw [pullF_case_exhausted f2p hA hB]
        exact ih hle2 h
      · rw [pullF_case_split f hA hB] at h
        rw [pullF_case_split f2p hA hB]
        cases h1 : pullF f s (s.semi_block_samples - s.semi_block_index) with
        | none => rw [h1] at h; simp at h
        | some be =>
          rw [h1] at h
          simp only [Option.some_bind] at h
          cases h2 : pullF f be.2.update_block_indices (n - (be.1.width : ℤ)) with
          | none => rw [h2] at h; simp at h
          | some nb =>
            rw [h2] at h
            rw [ih hle2 h1]
            simp only [Option.some_bind]
            rw [ih hle2 h2]
            exact h

theorem pullF_shape : ∀ {f : ℕ} {s : OverlapAdd} {n : ℤ} {m : Mat}
    {s2 : OverlapAdd}, pullF f s n = some (m, s2) →
    m.width = n.toNat ∧ m.rows.length = s.channels ∧
    s2.channels = s.channels ∧ s2.block_size = s.block_size ∧
    s2.window = s.window ∧ s2.input_buffer = s.input_buffer ∧
    s2.inv_time_factor = s.inv_time_factor := by
  intro f
  induction f with
  | zero => intro s n m s2 h; simp [pullF] at h
  | succ f ih =>
    intro s n m s2 h
    by_cases hA : s.semi_block_index + n ≤ s.semi_block_samples
    · rw [pullF_case_fit f hA] at h
      have h' := Option.some.inj h
      have hm : m = (s.take_from_semi_block n).1 := (congrArg Prod.fst h').symm
      have hs : s2 = (s.take_from_semi_block n).2 := (congrArg Prod.snd h').symm
      subst hm; subst hs
      refine ⟨take_width s n, ?_, rfl, rfl, rfl, rfl, rfl⟩
      rw [take_rows]
      simp
    · by_cases hB : s.semi_block_index = s.semi_block_samples
      · rw [pullF_case_exhausted f hA hB] at h
        have h3 := ih h
        exact h3
      · rw [pullF_case_split f hA hB] at h
        cases h1 : pullF f s (s.semi_block_samples - s.semi_block_index) with
        | none => rw [h1] at h; simp at h
        | some be =>
          rw [h1] at h
          simp only [Option.some_bind] at h
          cases h2 : pullF f be.2.update_block_indices (n - (be.1.width : ℤ)) with
          | none => rw [h2] at h; simp at h
          | some nb =>
            rw [h2] at h
            simp only [Option.some_bind, Option.some.injEq] at h
            have hm : m = be.1.hcat nb.1 := (congrArg Prod.fst h).symm
            have hs : s2 = nb.2 := (congrArg Prod.snd h).symm
            subst hm; subst hs
            obtain ⟨w1, l1, c1, b1, win1, buf1, r1⟩ :=
              ih (h1 : pullF f s _ = some (be.1, be.2))
            obtain ⟨w2, l2, c2, b2, win2, buf2, r2⟩ :=
              ih (h2 : pullF f _ _ = some (nb.1, nb.2))
            refine ⟨?_, ?_, c2.trans c1, b2.trans b1, win2.trans win1,
              buf2.trans buf1, r2.trans r1⟩
            · show be.1.width + nb.1.width = n.toNat
              rw [w1, w2]
              have : ¬ s.semi_block_index + n ≤ s.semi_block_samples := hA
              omega
            · show (List.zipWith (fun x y => x ++ y) be.1.rows nb.1.rows).length
                = s.channels
              rw [List.length_zipWith, l1, l2]
              have : (be.2.update_block_indices).channels = s.channels := c1
              omega

/-! ## Additivity of semi-block extraction -/

theorem take_add (s : OverlapAdd) {m n : ℤ} (hm : 0 ≤ m) (hn : 0 ≤ n) :
    (s.take_from_semi_block (m + n)).1
        = ((s.take_from_semi_block m).1).hcat
            (((s.take_from_semi_block m).2).take_from_semi_block n).1
      ∧ (s.take_from_semi_block (m + n)).2
        = (((s.take_from_semi_block m).2).take_from_semi_block n).2 := by
  constructor
  · ext : 1
    · show (s.take_from_semi_block (m + n)).1.rows
        = List.zipWith (fun x y => x ++ y)
            (s.take_from_semi_block m).1.rows
            (((s.take_from_semi_block m).2).take_from_semi_block n).1.rows
      simp only [take_snd]
      rw [take_rows, take_rows, take_rows]
      simp only [increment_semi, increment_input, increment_sum,
        increment_output, increment_channels, increment_buffer,
        increment_window, increment_sbs]
      rw [zipWith_map_same]
      congr 1
      funext c
      rw [show (m + n).toNat = m.toNat + n.toNat from by omega,
        List.range_add, List.map_append, List.map_map]
      congr 1
      congr 1
      funext j
      show s.input_buffer c (s.input_block_index + ((m.toNat + j : ℕ) : ℤ))
            * s.window (s.semi_block_index + ((m.toNat + j : ℕ) : ℤ))
          + s.input_buffer c (s.sum_buffer_index + ((m.toNat + j : ℕ) : ℤ))
            * s.window (s.semi_block_samples + s.semi_block_index
                + ((m.toNat + j : ℕ) : ℤ))
        = s.input_buffer c (s.input_block_index + m + (j : ℤ))
            * s.window (s.semi_block_index + m + (j : ℤ))
          + s.input_buffer c (s.sum_buffer_index + m + (j : ℤ))
            * s.window (s.semi_block_samples + (s.semi_block_index + m)
                + (j : ℤ))
      rw [show ((m.toNat + j : ℕ) : ℤ) = m + (j : ℤ) from by omega]
      simp only [add_assoc]
    · show (s.take_from_semi_block (m + n)).1.width
        = (s.take_from_semi_block m).1.width
          + (((s.take_from_semi_block m).2).take_from_semi_block n).1.width
      rw [take_width, take_width, take_width]
      omega
  · simp only [take_snd, increment_add]

theorem take_zero_mat (s : OverlapAdd) :
    (s.take_from_semi_block 0).1 = ⟨List.replicate s.channels [], 0⟩ := by
  ext : 1
  · rw [take_rows, show (0 : ℤ).toNat = 0 from rfl]
    simp [List.map_const']
  · rw [take_width]
    rfl

/-- Core additivity: a successful `pull n1` followed by a successful
`pull n2` agrees (output and final state) with one `pull (n1 + n2)` from
the same start, for non-negative request sizes. -/
theorem pull_additive : ∀ (f1 : ℕ) {f2 : ℕ} {s s1 s2 : OverlapAdd}
    {n1 n2 : ℤ} {a b : Mat}, 0 ≤ n1 → 0 ≤ n2 →
    pullF f1 s n1 = some (a, s1) →
    pullF f2 s1 n2 = some (b, s2) →
    ∃ f, pullF f s (n1 + n2) = some (a.hcat b, s2) := by
  intro f1
  induction f1 with
  | zero => intro f2 s s1 s2 n1 n2 a b _ _ h _; simp [pullF] at h
  | succ f1p ih =>
    intro f2 s s1 s2 n1 n2 a b hn1 hn2 ha hb
    by_cases hA : s.semi_block_index + n1 ≤ s.semi_block_samples
    · -- first call fits in the remaining semi-block
      rw [pullF_case_fit f1p hA] at ha
      have ha' := Option.some.inj ha
      have haM : a = (s.take_from_semi_block n1).1 := (congrArg Prod.fst ha').symm
      have haS : s1 = (s.take_from_semi_block n1).2 := (congrArg Prod.snd ha').symm
      subst haM; subst haS
      rw [take_snd] at hb
      cases f2 with
      | zero => simp [pullF] at hb
      | succ f2p =>
        by_cases hA2 : (s.increment_indices n1).semi_block_index + n2
            ≤ (s.increment_indices n1).semi_block_samples
        · -- second call also fits: combined is a single extraction
          rw [pullF_case_fit f2p hA2] at hb
          have hb' := Option.some.inj hb
          have hbM : b = ((s.increment_indices n1).take_from_semi_block n2).1 :=
            (congrArg Prod.fst hb').symm
          have hbS : s2 = ((s.increment_indices n1).take_from_semi_block n2).2 :=
            (congrArg Prod.snd hb').symm
          subst hbM; subst hbS
          refine ⟨1, ?_⟩
          simp only [increment_semi, increment_sbs] at hA2
          have hAc : s.semi_block_index + (n1 + n2) ≤ s.semi_block_samples := by
            omega
          rw [pullF_case_fit 0 hAc]
          obtain ⟨hT1, hT2⟩ := take_add s hn1 hn2
          simp only [take_snd] at hT1 hT2
          exact congrArg some (Prod.ext hT1 hT2)
        · by_cases hB2 : (s.increment_indices n1).semi_block_index
              = (s.increment_indices n1).semi_block_samples
          · -- second call starts exactly at the block boundary
            rw [pullF_case_exhausted f2p hA2 hB2] at hb
            simp only [increment_semi, increment_sbs] at hA2 hB2
            by_cases hz : n1 = 0
            · -- degenerate first call: empty extraction, state unchanged
              subst hz
              rw [increment_zero] at hb
              refine ⟨f2p + 2, ?_⟩
              have hAc : ¬ s.semi_block_index + (0 + n2) ≤ s.semi_block_samples := by
                omega
              have hBc : s.semi_block_index = s.semi_block_samples := by omega
              rw [pullF_case_exhausted (f2p + 1) hAc hBc]
              rw [pullF_mono (Nat.le_succ f2p) (by rw [zero_add]; exact hb)]
              rw [take_zero_mat s]
              obtain ⟨-, hlen, -, -, -, -, -⟩ := pullF_shape hb
              rw [Mat.hcat_left_empty s.channels b (by simpa using hlen)]
            · -- first call consumed exactly the semi-block remainder
              have hn1p : 0 < n1 := by omega
              refine ⟨f2p + 2, ?_⟩
              have hAc : ¬ s.semi_block_index + (n1 + n2) ≤ s.semi_block_samples := by
                omega
              have hBc : ¬ s.semi_block_index = s.semi_block_samples := by omega
              rw [pullF_case_split (f2p + 1) hAc hBc]
              rw [show s.semi_block_samples - s.semi_block_index = n1 from by omega]
              rw [pullF_case_fit f2p hA]
              simp only [Option.some_bind]
              rw [show n1 + n2 - ((s.take_from_semi_block n1).1.width : ℤ) = n2 from by
                rw [take_width]; omega]
              rw [take_snd]
              rw [pullF_mono (Nat.le_succ f2p) hb]
              simp only [Option.some_bind]
          · -- second call itself splits at the boundary
            rw [pullF_case_split f2p hA2 hB2] at hb
            cases h1 : pullF f2p (s.increment_indices n1)
                ((s.increment_indices n1).semi_block_samples
                  - (s.increment_indices n1).semi_block_index) with
            | none => rw [h1] at hb; simp at hb
            | some p1 =>
              rw [h1] at hb
              simp only [Option.some_bind] at hb
              cases h2 : pullF f2p p1.2.update_block_indices
                  (n2 - (p1.1.width : ℤ)) with
              | none => rw [h2] at hb; simp at hb
              | some p2 =>
                rw [h2] at hb
                simp only [Option.some_bind, Option.some.injEq] at hb
                have hbM : b = p1.1.hcat p2.1 := (congrArg Prod.fst hb).symm
                have hbS : s2 = p2.2 := (congrArg Prod.snd hb).symm
                subst hbM; subst hbS
                simp only [increment_semi, increment_sbs] at hA2 hB2 h1
                -- the inner head request lands exactly in the fitting case
                have hhead2 : 0 ≤ s.semi_block_samples
                    - (s.semi_block_index + n1) := by omega
                cases f2p with
                | zero => simp [pullF] at h1
                | succ f2q =>
                  have hfit1 : (s.increment_indices n1).semi_block_index
                      + (s.semi_block_samples - (s.semi_block_index + n1))
                      ≤ (s.increment_indices n1).semi_block_samples := by
                    simp only [increment_semi, increment_sbs]
                    omega
                  rw [pullF_case_fit f2q hfit1] at h1
                  have h1' := Option.some.inj h1
                  have hp1M : p1.1 = ((s.increment_indices n1).take_from_semi_block
                      (s.semi_block_samples - (s.semi_block_index + n1))).1 :=
                    congrArg Prod.fst h1'.symm
                  have hp1S : p1.2 = ((s.increment_indices n1).take_from_semi_block
                      (s.semi_block_samples - (s.semi_block_index + n1))).2 :=
                    congrArg Prod.snd h1'.symm
                  refine ⟨f2q + 3, ?_⟩
                  have hAc : ¬ s.semi_block_index + (n1 + n2)
                      ≤ s.semi_block_samples := by omega
                  have hBc : ¬ s.semi_block_index = s.semi_block_samples := by
                    omega
                  rw [pullF_case_split (f2q + 2) hAc hBc]
                  rw [show s.semi_block_samples - s.semi_block_index
                      = n1 + (s.semi_block_samples - (s.semi_block_index + n1))
                      from by omega]
                  have hfitc : s.semi_block_index
                      + (n1 + (s.semi_block_samples - (s.semi_block_index + n1)))
                      ≤ s.semi_block_samples := by omega
                  rw [pullF_case_fit (f2q + 1) hfitc]
                  simp only [Option.some_bind]
                  obtain ⟨hT1, hT2⟩ := take_add s hn1 hhead2
                  simp only [take_snd] at hT1 hT2
                  have harg : n1 + n2 - ((s.take_from_semi_block
                      (n1 + (s.semi_block_samples - (s.semi_block_index + n1)))).1.width : ℤ)
                      = n2 - (p1.1.width : ℤ) := by
                    rw [take_width, hp1M, take_width]
                    omega
                  rw [harg]
                  have hstate : (s.take_from_semi_block
                      (n1 + (s.semi_block_samples - (s.semi_block_index + n1)))).2
                      = p1.2 := by
                    rw [take_snd, hT2, hp1S, take_snd]
                  rw [hstate]
                  rw [pullF_mono (by omega : f2q + 1 ≤ f2q + 2) h2]
                  simp only [Option.some_bind, Option.some.injEq]
                  refine Prod.ext ?_ rfl
                  rw [hT1, hp1M, Mat.hcat_assoc]
    · by_cases hB : s.semi_block_index = s.semi_block_samples
      · -- first call retries after a boundary advance
        rw [pullF_case_exhausted f1p hA hB] at ha
        obtain ⟨g, hg⟩ := ih hn1 hn2 ha hb
        refine ⟨g + 1, ?_⟩
        have hAc : ¬ s.semi_block_index + (n1 + n2) ≤ s.semi_block_samples := by
          omega
        rw [pullF_case_exhausted g hAc hB]
        exact hg
      · -- first call splits at the boundary
        rw [pullF_case_split f1p hA hB] at ha
        cases h1 : pullF f1p s
            (s.semi_block_samples - s.semi_block_index) with
        | none => rw [h1] at ha; simp at ha
        | some q1 =>
          rw [h1] at ha
          simp only [Option.some_bind] at ha
          cases h2 : pullF f1p q1.2.update_block_indices
              (n1 - (q1.1.width : ℤ)) with
          | none => rw [h2] at ha; simp at ha
          | some q2 =>
            rw [h2] at ha
            simp only [Option.some_bind, Option.some.injEq] at ha
            have haM : a = q1.1.hcat q2.1 := (congrArg Prod.fst ha).symm
            have haS : s1 = q2.2 := (congrArg Prod.snd ha).symm
            subst haM; subst haS
            have hw1 : q1.1.width
                = (s.semi_block_samples - s.semi_block_index).toNat :=
              (pullF_shape h1).1
            have hn1' : 0 ≤ n1 - (q1.1.width : ℤ) := by rw [hw1]; omega
            obtain ⟨g, hg⟩ := ih hn1' hn2 h2 hb
            refine ⟨(f1p + g) + 1, ?_⟩
            have hAc : ¬ s.semi_block_index + (n1 + n2)
                ≤ s.semi_block_samples := by omega
            rw [pullF_case_split (f1p + g) hAc hB]
            rw [pullF_mono (by omega : f1p ≤ f1p + g) h1]
            simp only [Option.some_bind]
            rw [show n1 + n2 - (q1.1.width : ℤ)
                = (n1 - (q1.1.width : ℤ)) + n2 from by ring]
            rw [pullF_mono (by omega : g ≤ f1p + g) hg]
            simp only [Option.some_bind, Option.some.injEq]
            exact Prod.ext (Mat.hcat_assoc q1.1 q2.1 b).symm rfl

/-! ## Termination and divergence of the `pull` recursion -/

/-- With a zero-length semi-block (`block_size // 2 = 0`) and the cursor
at 0, a positive request loops in the boundary branch forever: no
recursion depth produces a result. -/
theorem pullF_none_of_semi_zero : ∀ (f : ℕ) {s : OverlapAdd} {n : ℤ},
    s.semi_block_samples = 0 → s.semi_block_index = 0 → 0 < n →
    pullF f s n = none := by
  intro f
  induction f with
  | zero => intro s n _ _ _; rfl
  | succ fp ih =>
    intro s n hS hi hn
    have hA : ¬ s.semi_block_index + n ≤ s.semi_block_samples := by omega
    have hB : s.semi_block_index = s.semi_block_samples := by omega
    rw [pullF_case_exhausted fp hA hB]
    exact ih (by rw [update_sbs]; exact hS) (update_semi s) hn

/-- With a positive semi-block length and a cursor inside the semi-block,
every non-negative request is served at some finite recursion depth. -/
theorem pull_term_aux : ∀ (k : ℕ) (s : OverlapAdd) (n : ℤ),
    n.toNat ≤ k → 1 ≤ s.semi_block_samples → 0 ≤ s.semi_block_index →
    s.semi_block_index ≤ s.semi_block_samples →
    ∃ f r, pullF f s n = some r := by
  intro k
  induction k with
  | zero =>
    intro s n hk hS h0 hiS
    exact ⟨1, _, pullF_case_fit 0 (by omega)⟩
  | succ kp ih =>
    intro s n hk hS h0 hiS
    by_cases hA : s.semi_block_index + n ≤ s.semi_block_samples
    · exact ⟨1, _, pullF_case_fit 0 hA⟩
    · by_cases hB : s.semi_block_index = s.semi_block_samples
      · by_cases hfit : (0 : ℤ) + n ≤ s.semi_block_samples
        · refine ⟨2, (s.update_block_indices).take_from_semi_block n, ?_⟩
          rw [pullF_case_exhausted 1 hA hB]
          exact pullF_case_fit 0
            (by simp only [update_semi, update_sbs]; omega)
        · obtain ⟨g, r, hg⟩ := ih
            (((s.update_block_indices).increment_indices
                s.semi_block_samples).update_block_indices)
            (n - s.semi_block_samples)
            (by omega)
            (by simp only [update_sbs, increment_sbs]; omega)
            (by simp only [update_semi]; omega)
            (by simp only [update_semi, update_sbs, increment_sbs]; omega)
          refine ⟨g + 3,
            (((s.update_block_indices).take_from_semi_block
                s.semi_block_samples).1.hcat r.1, r.2), ?_⟩
          rw [pullF_case_exhausted (g + 2) hA hB]
          have hAc : ¬ (s.update_block_indices).semi_block_index + n
              ≤ (s.update_block_indices).semi_block_samples := by
            simp only [update_semi, update_sbs]; omega
          have hBc : ¬ (s.update_block_indices).semi_block_index
              = (s.update_block_indices).semi_block_samples := by
            simp only [update_semi, update_sbs]; omega
          rw [pullF_case_split (g + 1) hAc hBc]
          rw [show (s.update_block_indices).semi_block_samples
              - (s.update_block_indices).semi_block_index
              = s.semi_block_samples from by
            simp only [update_semi, update_sbs]; omega]
          rw [pullF_case_fit g
            (by simp only [update_semi, update_sbs]; omega)]
          simp only [Option.some_bind]
          rw [show n - (((s.update_block_indices).take_from_semi_block
                s.semi_block_samples).1.width : ℤ)
              = n - s.semi_block_samples from by rw [take_width]; omega]
          rw [take_snd]
          rw [pullF_mono (by omega : g ≤ g + 1) hg]
          simp only [Option.some_bind]
      · -- the head request fits exactly; recurse on the rest
        obtain ⟨g, r, hg⟩ := ih
          (((s.increment_indices (s.semi_block_samples
              - s.semi_block_index))).update_block_indices)
          (n - (s.semi_block_samples - s.semi_block_index))
          (by omega)
          (by simp only [update_sbs, increment_sbs]; omega)
          (by simp only [update_semi]; omega)
          (by simp only [update_semi, update_sbs, increment_sbs]; omega)
        refine ⟨g + 2,
          ((s.take_from_semi_block (s.semi_block_samples
              - s.semi_block_index)).1.hcat r.1, r.2), ?_⟩
        rw [pullF_case_split (g + 1) hA hB]
        rw [pullF_case_fit g (by omega)]
        simp only [Option.some_bind]
        rw [show n - ((s.take_from_semi_block (s.semi_block_samples
              - s.semi_block_index)).1.width : ℤ)
            = n - (s.semi_block_samples - s.semi_block_index) from by
          rw [take_width]; omega]
        rw [take_snd]
        rw [pullF_mono (by omega : g ≤ g + 1) hg]
        simp only [Option.some_bind]

/-! ## Determinism -/

theorem pullF_det {f1 f2 : ℕ} {s : OverlapAdd} {n : ℤ}
    {r1 r2 : Mat × OverlapAdd} (h1 : pullF f1 s n = some r1)
    (h2 : pullF f2 s n = some r2) : r1 = r2 := by
  have e1 := pullF_mono (Nat.le_max_left f1 f2) h1
  have e2 := pullF_mono (Nat.le_max_right f1 f2) h2
  rw [e1] at e2
  exact Option.some.inj e2

/-! ## The reachable-state invariant -/

@[simp] theorem set_rate_semi (s : OverlapAdd) (r : ℚ) :
    (s.set_rate r).semi_block_index = s.semi_block_index := rfl
@[simp] theorem set_rate_sbs (s : OverlapAdd) (r : ℚ) :
    (s.set_rate r).semi_block_samples = s.semi_block_samples := rfl
@[simp] theorem set_rate_input (s : OverlapAdd) (r : ℚ) :
    (s.set_rate r).input_block_index = s.input_block_index := rfl
@[simp] theorem set_rate_sum (s : OverlapAdd) (r : ℚ) :
    (s.set_rate r).sum_buffer_index = s.sum_buffer_index := rfl
@[simp] theorem set_rate_output (s : OverlapAdd) (r : ℚ) :
    (s.set_rate r).output_index = s.output_index := rfl
@[simp] theorem set_rate_rate (s : OverlapAdd) (r : ℚ) :
    (s.set_rate r).inv_time_factor = r := rfl

theorem set_time_factor_of_ne {s : OverlapAdd} {tf : ℚ} (h : tf ≠ 0) :
    s.set_time_factor tf = some { s with inv_time_factor := 1 / tf } := by
  simp [OverlapAdd.set_time_factor, h]

/-- Python's `round` of a non-negative value is non-negative. -/
theorem pyRound_nonneg {q : ℚ} (h : 0 ≤ q) : 0 ≤ pyRound q := by
  have hf : (0 : ℤ) ≤ ratFloor q :=
    Int.ediv_nonneg (Rat.num_nonneg.mpr h) (Int.ofNat_nonneg q.den)
  unfold pyRound
  split_ifs <;> omega

/-- State invariant maintained by the engine under non-negative requests
and positive rates: the semi-block cursor stays inside the semi-block and
all four cursors stay non-negative. -/
def EngineInv (s : OverlapAdd) : Prop :=
  0 ≤ s.semi_block_index ∧ s.semi_block_index ≤ s.semi_block_samples ∧
  0 ≤ s.input_block_index ∧ 0 ≤ s.sum_buffer_index ∧
  0 ≤ s.output_index ∧ 0 < s.inv_time_factor

theorem EngineInv_update {s : OverlapAdd} (h : EngineInv s) :
    EngineInv s.update_block_indices := by
  obtain ⟨h1, h2, h3, h4, h5, h6⟩ := h
  refine ⟨le_refl 0, ?_, ?_, h3, h5, h6⟩
  · rw [update_semi, update_sbs]; omega
  · rw [update_input]
    exact pyRound_nonneg (mul_nonneg (by exact_mod_cast h5) h6.le)

theorem EngineInv_pullF : ∀ {f : ℕ} {s : OverlapAdd} {n : ℤ} {m : Mat}
    {s2 : OverlapAdd}, 0 ≤ n → EngineInv s → pullF f s n = some (m, s2) →
    EngineInv s2 := by
  intro f
  induction f with
  | zero => intro s n m s2 _ _ h; simp [pullF] at h
  | succ fp ih =>
    intro s n m s2 hn hInv h
    by_cases hA : s.semi_block_index + n ≤ s.semi_block_samples
    · rw [pullF_case_fit fp hA] at h
      have h' := Option.some.inj h
      have hs : s2 = (s.take_from_semi_block n).2 := (congrArg Prod.snd h').symm
      subst hs
      obtain ⟨h1, h2, h3, h4, h5, h6⟩ := hInv
      rw [take_snd]
      exact ⟨by rw [increment_semi]; omega,
        by rw [increment_semi, increment_sbs]; omega,
        by rw [increment_input]; omega,
        by rw [increment_sum]; omega,
        by rw [increment_output]; omega,
        by rw [increment_rate]; exact h6⟩
    · by_cases hB : s.semi_block_index = s.semi_block_samples
      · rw [pullF_case_exhausted fp hA hB] at h
        exact ih hn (EngineInv_update hInv) h
      · rw [pullF_case_split fp hA hB] at h
        cases h1 : pullF fp s
            (s.semi_block_samples - s.semi_block_index) with
        | none => rw [h1] at h; simp at h
        | some p1 =>
          rw [h1] at h
          simp only [Option.some_bind] at h
          cases h2 : pullF fp p1.2.update_block_indices
              (n - (p1.1.width : ℤ)) with
          | none => rw [h2] at h; simp at h
          | some p2 =>
            rw [h2] at h
            simp only [Option.some_bind, Option.some.injEq] at h
            have hs : s2 = p2.2 := (congrArg Prod.snd h).symm
            subst hs
            have hhead : 0 ≤ s.semi_block_samples - s.semi_block_index := by
              obtain ⟨h1', h2', -⟩ := hInv; omega
            have hInv1 : EngineInv p1.2 := by
              have := ih hhead hInv (by
                rw [h1] : pullF fp s _ = some (p1.1, p1.2))
              exact this
            have hw1 : p1.1.width
                = (s.semi_block_samples - s.semi_block_index).toNat :=
              (pullF_shape (by rw [h1] : pullF fp s _ = some (p1.1, p1.2))).1
            have hn2 : 0 ≤ n - (p1.1.width : ℤ) := by rw [hw1]; omega
            exact ih hn2 (EngineInv_update hInv1) (by
              rw [h2] : pullF fp p1.2.update_block_indices _ = some (p2.1, p2.2))

/-- Valid client traces: any sequence of `pull` calls with non-negative
request sizes and rate changes to positive values, starting from a given
state. -/
inductive Reaches (s0 : OverlapAdd) : OverlapAdd → Prop
  | refl : Reaches s0 s0
  | pull {t t2 : OverlapAdd} {f : ℕ} {n : ℤ} {m : Mat} :
      Reaches s0 t → 0 ≤ n → pullF f t n = some (m, t2) → Reaches s0 t2
  | rate {t : OverlapAdd} {r : ℚ} : Reaches s0 t → 0 < r →
      Reaches s0 (t.set_rate r)
  | timeFactor {t t2 : OverlapAdd} {tf : ℚ} : Reaches s0 t → 0 < tf →
      t.set_time_factor tf = some t2 → Reaches s0 t2

theorem EngineInv_init (buf : ℕ → ℤ → ℚ) {bs : ℤ} (ch : ℕ) (w : ℤ → ℚ)
    (h : 0 ≤ bs) : EngineInv (OverlapAdd.init buf bs ch w) := by
  refine ⟨le_refl 0, ?_, le_refl 0, le_refl 0, le_refl 0, one_pos⟩
  show (0 : ℤ) ≤ bs / 2
  omega

theorem EngineInv_reaches {s0 s : OverlapAdd} (h0 : EngineInv s0)
    (h : Reaches s0 s) : EngineInv s := by
  induction h with
  | refl => exact h0
  | pull _ hn hp ih => exact EngineInv_pullF hn ih hp
  | rate _ hr ih =>
    obtain ⟨h1, h2, h3, h4, h5, -⟩ := ih
    exact ⟨h1, h2, h3, h4, h5, hr⟩
  | timeFactor _ htf hset ih =>
    rw [set_time_factor_of_ne (ne_of_gt htf)] at hset
    obtain ⟨h1, h2, h3, h4, h5, -⟩ := ih
    have := Option.some.inj hset
    subst this
    exact ⟨h1, h2, h3, h4, h5, by positivity⟩

/-! ## Concrete fixtures used by witnesses and counterexamples -/

theorem runPull_spec (s : OverlapAdd) (n : ℤ)
    (h : (pullF 64 s n).isSome = true) :
    pullF 64 s n = some ((runPull s n).1, (runPull s n).2) := by
  unfold runPull
  cases hc : pullF 64 s n with
  | none => rw [hc] at h; simp at h
  | some r => simp [hc]

/-- A deterministic ramp source: sample value equals its position. -/
def sampleBuf : ℕ → ℤ → ℚ := fun _ p => (p : ℚ)

/-- An arbitrary nonzero window row standing in for the sampled Hann
window. -/
def sampleWin : ℤ → ℚ := fun j => (j : ℚ) + 1

/-- A stretcher over the ramp source with `block_size = 4`, 2 channels. -/
def demoS0 : OverlapAdd := OverlapAdd.init sampleBuf 4 2 sampleWin

def demoA : Mat × OverlapAdd := runPull demoS0 3

def demoB : Mat × OverlapAdd := runPull demoA.2 2

def demoC : Mat × OverlapAdd := runPull demoS0 5

/-- A stretcher with `block_size = 2` (one-sample semi-blocks), used to
exhibit the failure of the cursor-ordering invariant at rate 1/2. -/
def cexS0 : OverlapAdd := OverlapAdd.init sampleBuf 2 1 sampleWin

def cexT1 : OverlapAdd := (runPull (cexS0.set_rate (1/2)) 1).2

def cexT2 : OverlapAdd := (runPull cexT1 1).2

/-- A stretcher with `block_size = 1`: its semi-block length is 0. -/
def oneS0 : OverlapAdd := OverlapAdd.init sampleBuf 1 1 sampleWin

/-- A stretcher constructed with the invalid `block_size = 0`. -/
def zeroBlockS : OverlapAdd := OverlapAdd.init sampleBuf 0 1 sampleWin

/-! ## Claim theorems -/

/-- Claim C1: chunking-invariance of `pull`.  For a valid stretcher state
(positive even block size, positive channel count, positive rate) and
non-negative request sizes, a `pull n1` followed by a `pull n2` produces,
concatenated along the time axis, exactly the output of a single
`pull (n1 + n2)`, with the same final cursor state. -/
theorem pull_chunking_invariance {s s1 s2 s3 : OverlapAdd}
    {n1 n2 : ℤ} {a b m : Mat} {f1 f2 f3 : ℕ}
    (_hbs : 0 < s.block_size) (_heven : s.block_size % 2 = 0)
    (_hch : 0 < s.channels) (_hrate : 0 < s.inv_time_factor)
    (hn1 : 0 ≤ n1) (hn2 : 0 ≤ n2)
    (h1 : pullF f1 s n1 = some (a, s1))
    (h2 : pullF f2 s1 n2 = some (b, s2))
    (h3 : pullF f3 s (n1 + n2) = some (m, s3)) :
    m = a.hcat b ∧ s3 = s2 := by
  obtain ⟨f, hf⟩ := pull_additive f1 hn1 hn2 h1 h2
  have hd := pullF_det h3 hf
  exact ⟨congrArg Prod.fst hd, congrArg Prod.snd hd⟩

theorem pull_chunking_invariance_witness :
    demoC.1 = demoA.1.hcat demoB.1 ∧ demoC.2 = demoB.2 :=
  @pull_chunking_invariance demoS0 demoA.2 demoB.2 demoC.2 3 2
    demoA.1 demoB.1 demoC.1 64 64 64
    (by decide) (by decide) (by decide) (by decide)
    (by decide) (by decide)
    (runPull_spec demoS0 3 (by with_unfolding_all rfl))
    (runPull_spec demoA.2 2 (by with_unfolding_all rfl))
    (runPull_spec demoS0 (3 + 2) (by with_unfolding_all rfl))

theorem getD_map_range {α : Type} (f : ℕ → α) (d : α) {c n : ℕ}
    (h : c < n) : ((List.range n).map f).getD c d = f c := by
  rw [List.getD_eq_getElem?_getD, List.getElem?_map, List.getElem?_range h]
  rfl

/-- Claim C2: postcondition of `_take_from_semi_block`.  Under the caller
guard `0 ≤ k` and `semi_block_index + k ≤ semi_block_samples`, each
returned entry at channel `c`, offset `j < k` is
`window[semiBlockIndex + j] * source[inputBlockIndex + j] +
window[semiBlockSamples + semiBlockIndex + j] * source[sumBufferIndex + j]`,
all four cursors advance by exactly `k`, and `block_size`, `channels`,
the window and `inv_time_factor` are unchanged. -/
theorem take_from_semi_block_spec (s : OverlapAdd) (k : ℤ)
    (hk : 0 ≤ k)
    (_hfit : s.semi_block_index + k ≤ s.semi_block_samples) :
    (∀ c j : ℕ, c < s.channels → (j : ℤ) < k →
      ((s.take_from_semi_block k).1).entry c j
        = s.window (s.semi_block_index + (j : ℤ))
            * s.input_buffer c (s.input_block_index + (j : ℤ))
          + s.window (s.semi_block_samples + s.semi_block_index + (j : ℤ))
            * s.input_buffer c (s.sum_buffer_index + (j : ℤ)))
    ∧ (s.take_from_semi_block k).2.input_block_index
        = s.input_block_index + k
    ∧ (s.take_from_semi_block k).2.sum_buffer_index
        = s.sum_buffer_index + k
    ∧ (s.take_from_semi_block k).2.output_index = s.output_index + k
    ∧ (s.take_from_semi_block k).2.semi_block_index
        = s.semi_block_index + k
    ∧ (s.take_from_semi_block k).2.block_size = s.block_size
    ∧ (s.take_from_semi_block k).2.channels = s.channels
    ∧ (s.take_from_semi_block k).2.window = s.window
    ∧ (s.take_from_semi_block k).2.inv_time_factor = s.inv_time_factor := by
  refine ⟨?_, rfl, rfl, rfl, rfl, rfl, rfl, rfl, rfl⟩
  intro c j hc hj
  unfold Mat.entry
  rw [take_rows]
  rw [getD_map_range _ _ hc]
  rw [getD_map_range _ _ (by omega : j < k.toNat)]
  ring

theorem take_from_semi_block_spec_witness :
    ((demoS0.take_from_semi_block 2).1.entry 0 1
        = demoS0.window (demoS0.semi_block_index + ((1 : ℕ) : ℤ))
            * demoS0.input_buffer 0 (demoS0.input_block_index + ((1 : ℕ) : ℤ))
          + demoS0.window (demoS0.semi_block_samples + demoS0.semi_block_index
              + ((1 : ℕ) : ℤ))
            * demoS0.input_buffer 0 (demoS0.sum_buffer_index + ((1 : ℕ) : ℤ)))
    ∧ (demoS0.take_from_semi_block 2).2.semi_block_index
        = demoS0.semi_block_index + 2
    ∧ (demoS0.take_from_semi_block 2).2.output_index
        = demoS0.output_index + 2 :=
  ⟨(take_from_semi_block_spec demoS0 2 (by decide) (by decide)).1 0 1
      (by decide) (by decide),
   (take_from_semi_block_spec demoS0 2 (by decide) (by decide)).2.2.2.2.1,
   (take_from_semi_block_spec demoS0 2 (by decide) (by decide)).2.2.2.1⟩

/-- Claim C3: postcondition of `_update_block_indices`.  Afterwards the
summing-buffer cursor equals the old current-block cursor, the
current-block cursor equals `round(output_index * inv_time_factor)`
(Python banker's rounding modelled by `pyRound`), the semi-block offset
is 0, and the output cursor, rate, block size, channel count and window
are unchanged. -/
theorem update_block_indices_spec (s : OverlapAdd) :
    s.update_block_indices.sum_buffer_index = s.input_block_index
    ∧ s.update_block_indices.input_block_index
        = pyRound (s.output_index * s.inv_time_factor)
    ∧ s.update_block_indices.semi_block_index = 0
    ∧ s.update_block_indices.output_index = s.output_index
    ∧ s.update_block_indices.inv_time_factor = s.inv_time_factor
    ∧ s.update_block_indices.block_size = s.block_size
    ∧ s.update_block_indices.channels = s.channels
    ∧ s.update_block_indices.window = s.window :=
  ⟨rfl, rfl, rfl, rfl, rfl, rfl, rfl, rfl⟩

/-- Claim C4 is refuted on the code: with the positive rate 1/2 set via
`set_rate`, after two single-sample pulls from a freshly constructed
stretcher (`block_size = 2`), the state reached — the start state of any
next `pull` — has `sum_buffer_index = 2 > 1 = input_block_index`, because
the boundary advance recomputes the read head as
`round(output_index / 2)`, which falls behind the old head.  So the
claimed `inputBlockIndex ≥ sumBufferIndex` part of the invariant fails. -/
theorem cursor_invariant_counterexample :
    Reaches cexS0 cexT2
    ∧ cexT2.sum_buffer_index = 2 ∧ cexT2.input_block_index = 1
    ∧ ¬ cexT2.sum_buffer_index ≤ cexT2.input_block_index := by
  refine ⟨?_, by with_unfolding_all rfl, by with_unfolding_all rfl, by
    with_unfolding_all decide⟩
  have r1 : Reaches cexS0 (cexS0.set_rate (1/2)) :=
    Reaches.rate Reaches.refl (by norm_num)
  have r2 : Reaches cexS0 cexT1 :=
    Reaches.pull r1 (by decide)
      (runPull_spec (cexS0.set_rate (1/2)) 1 (by with_unfolding_all rfl))
  exact Reaches.pull r2 (by decide)
    (runPull_spec cexT1 1 (by with_unfolding_all rfl))

/-- Claim C4, amended: dropping the failing `inputBlockIndex ≥
sumBufferIndex` conjunct, the rest holds: from the all-zero initial state
of a constructed stretcher with positive `block_size`, any sequence of
`pull` calls with non-negative sizes and rate changes to positive values
keeps `0 ≤ semiBlockIndex ≤ semiBlockSamples` and keeps all four cursors
(including `inputBlockIndex` and `sumBufferIndex` separately)
non-negative at the start of every external `pull`. -/
theorem cursor_invariant_amended {buf : ℕ → ℤ → ℚ} {bs : ℤ} {ch : ℕ}
    {w : ℤ → ℚ} {s : OverlapAdd} (hbs : 0 < bs)
    (h : Reaches (OverlapAdd.init buf bs ch w) s) :
    0 ≤ s.semi_block_index ∧ s.semi_block_index ≤ s.semi_block_samples
    ∧ 0 ≤ s.input_block_index ∧ 0 ≤ s.sum_buffer_index
    ∧ 0 ≤ s.output_index := by
  obtain ⟨h1, h2, h3, h4, h5, -⟩ :=
    EngineInv_reaches (EngineInv_init buf ch w hbs.le) h
  exact ⟨h1, h2, h3, h4, h5⟩

theorem cursor_invariant_amended_witness :
    0 ≤ cexS0.semi_block_index
    ∧ cexS0.semi_block_index ≤ cexS0.semi_block_samples
    ∧ 0 ≤ cexS0.input_block_index ∧ 0 ≤ cexS0.sum_buffer_index
    ∧ 0 ≤ cexS0.output_index :=
  cursor_invariant_amended (by decide) Reaches.refl

theorem pull_zero_aux {s : OverlapAdd}
    (h : s.semi_block_index ≤ s.semi_block_samples) :
    pullF 1 s 0 = some (⟨List.replicate s.channels [], 0⟩, s) := by
  rw [pullF_case_fit 0 (by omega)]
  refine congrArg some (Prod.ext (take_zero_mat s) ?_)
  rw [take_snd, increment_zero]

/-- Claim C5: `pull(0)` is a pure no-op.  On every state reachable from a
constructed stretcher (positive `block_size`) by valid calls, `pull 0`
succeeds immediately, returns the `channels × 0` result, leaves the state
(all four cursors included) unchanged — and does so identically for every
possible sample source, so no source sample influences anything. -/
theorem pull_zero_noop {buf : ℕ → ℤ → ℚ} {bs : ℤ} {ch : ℕ}
    {w : ℤ → ℚ} {s : OverlapAdd} (hbs : 0 < bs)
    (h : Reaches (OverlapAdd.init buf bs ch w) s) :
    pullF 1 s 0 = some (⟨List.replicate s.channels [], 0⟩, s)
    ∧ ∀ buf2 : ℕ → ℤ → ℚ,
        pullF 1 { s with input_buffer := buf2 } 0
          = some (⟨List.replicate s.channels [], 0⟩,
              { s with input_buffer := buf2 }) := by
  have hinv := EngineInv_reaches (EngineInv_init buf ch w hbs.le) h
  exact ⟨pull_zero_aux hinv.2.1, fun buf2 => pull_zero_aux hinv.2.1⟩

theorem pull_zero_noop_witness :
    pullF 1 cexS0 0 = some (⟨List.replicate cexS0.channels [], 0⟩, cexS0) :=
  (pull_zero_noop (by decide) Reaches.refl).1

/-- Claim C6 is refuted on the code as stated: it quantifies over every
`blockSize > 0`, but for `block_size = 1` the semi-block length
`1 // 2 = 0` makes the boundary branch fire forever (the cursor bounds
`0 ≤ semiBlockIndex ≤ semiBlockSamples` hold, `channels = 1 > 0`,
`n = 1 ≥ 0`), so `pull 1` terminates at no recursion depth. -/
theorem pull_termination_counterexample :
    0 < oneS0.block_size ∧ 0 < oneS0.channels
    ∧ 0 ≤ oneS0.semi_block_index
    ∧ oneS0.semi_block_index ≤ oneS0.semi_block_samples
    ∧ ¬ pullTerminates oneS0 1 := by
  refine ⟨by decide, by decide, by decide, by decide, ?_⟩
  rintro ⟨f, hf⟩
  rw [pullF_none_of_semi_zero f (by decide) (by decide) (by decide)] at hf
  simp at hf

/-- Claim C6, amended: termination holds once `blockSize ≥ 2` (so that
the semi-block length `blockSize // 2` is at least 1; `blockSize = 1`,
although positive, diverges).  For every such state with
`0 ≤ semiBlockIndex ≤ semiBlockSamples` and every request `n ≥ 0`, the
recursion of `pull` terminates. -/
theorem pull_termination_amended {s : OverlapAdd} {n : ℤ}
    (hbs : 2 ≤ s.block_size) (_hch : 0 < s.channels)
    (h0 : 0 ≤ s.semi_block_index)
    (hiS : s.semi_block_index ≤ s.semi_block_samples) (_hn : 0 ≤ n) :
    pullTerminates s n := by
  obtain ⟨f, r, hf⟩ := pull_term_aux n.toNat s n (le_refl _)
    (by show (1 : ℤ) ≤ s.block_size / 2; omega) h0 hiS
  exact ⟨f, by rw [hf]; rfl⟩

theorem pull_termination_amended_witness : pullTerminates demoS0 5 :=
  pull_termination_amended (by decide) (by decide) (by decide) (by decide)
    (by decide)

/-- Claim C7: `set_time_factor 0` fails (Python's `1 / 0` raises
`ZeroDivisionError` before any assignment) and therefore produces no
successor state: the stored `inv_time_factor` of every caller-held state
is untouched. -/
theorem set_time_factor_zero_fails (s : OverlapAdd) :
    s.set_time_factor 0 = none := by
  simp [OverlapAdd.set_time_factor]

/-- Claim C8 is refuted on the code: the Python constructor performs no
validation whatsoever.  Constructing with the non-positive
`block_size = 0` (and `channels = 1`) raises nothing and yields a usable
object — its fields are populated and `pull 0` succeeds on it. -/
theorem init_validation_counterexample :
    zeroBlockS.block_size = 0 ∧ zeroBlockS.channels = 1
    ∧ zeroBlockS.inv_time_factor = 1
    ∧ (pullF 1 zeroBlockS 0).isSome = true :=
  ⟨rfl, rfl, rfl, rfl⟩

/-- Claim C8, amended: the constructor performs no parameter validation:
for non-positive `block_size` or a zero channel count it still succeeds,
storing the given `block_size` and `channels`, setting
`inv_time_factor = 1` and zeroing all four cursors (no error is
surfaced to the caller). -/
theorem init_no_validation_amended (buf : ℕ → ℤ → ℚ) (bs : ℤ) (ch : ℕ)
    (w : ℤ → ℚ) (_h : bs ≤ 0 ∨ ch = 0) :
    (OverlapAdd.init buf bs ch w).block_size = bs
    ∧ (OverlapAdd.init buf bs ch w).channels = ch
    ∧ (OverlapAdd.init buf bs ch w).window = w
    ∧ (OverlapAdd.init buf bs ch w).input_buffer = buf
    ∧ (OverlapAdd.init buf bs ch w).inv_time_factor = 1
    ∧ (OverlapAdd.init buf bs ch w).semi_block_index = 0
    ∧ (OverlapAdd.init buf bs ch w).input_block_index = 0
    ∧ (OverlapAdd.init buf bs ch w).sum_buffer_index = 0
    ∧ (OverlapAdd.init buf bs ch w).output_index = 0 :=
  ⟨rfl, rfl, rfl, rfl, rfl, rfl, rfl, rfl, rfl⟩

theorem init_no_validation_amended_witness :
    (OverlapAdd.init sampleBuf 0 1 sampleWin).block_size = 0
    ∧ (OverlapAdd.init sampleBuf 0 1 sampleWin).channels = 1
    ∧ (OverlapAdd.init sampleBuf 0 1 sampleWin).window = sampleWin
    ∧ (OverlapAdd.init sampleBuf 0 1 sampleWin).input_buffer = sampleBuf
    ∧ (OverlapAdd.init sampleBuf 0 1 sampleWin).inv_time_factor = 1
    ∧ (OverlapAdd.init sampleBuf 0 1 sampleWin).semi_block_index = 0
    ∧ (OverlapAdd.init sampleBuf 0 1 sampleWin).input_block_index = 0
    ∧ (OverlapAdd.init sampleBuf 0 1 sampleWin).sum_buffer_index = 0
    ∧ (OverlapAdd.init sampleBuf 0 1 sampleWin).output_index = 0 :=
  init_no_validation_amended sampleBuf 0 1 sampleWin (Or.inl (le_refl 0))

/-- Claim C10: `set_rate` is total and unvalidated: for every value
`r` — zero and negative values included — it succeeds, stores exactly
`r` as `inv_time_factor`, and changes nothing else (block size,
channels, window, source, and all four cursors are untouched).  The
data-model constraint that the rate be positive is thus not enforced. -/
theorem set_rate_total_spec (s : OverlapAdd) (r : ℚ) :
    (s.set_rate r).inv_time_factor = r
    ∧ (s.set_rate r).block_size = s.block_size
    ∧ (s.set_rate r).channels = s.channels
    ∧ (s.set_rate r).window = s.window
    ∧ (s.set_rate r).input_buffer = s.input_buffer
    ∧ (s.set_rate r).semi_block_index = s.semi_block_index
    ∧ (s.set_rate r).input_block_index = s.input_block_index
    ∧ (s.set_rate r).sum_buffer_index = s.sum_buffer_index
    ∧ (s.set_rate r).output_index = s.output_index :=
  ⟨rfl, rfl, rfl, rfl, rfl, rfl, rfl, rfl, rfl⟩
